import Mathlib

/-!
# Verification of the checkpointed enrichment pipeline (`post_process_findings.py`)

This file is a shallow embedding of the step-4 pipeline script
`src/post_process_findings.py`:

* Python dictionaries holding JSON data are modelled as association lists
  over a `JVal` JSON value type (insertion order preserved, keys unique).
* `json.dumps(..., sort_keys=True, ensure_ascii=False)` is modelled by
  `pyDumps`, which serializes objects with their entries sorted by key
  (lexicographic comparison of Unicode code points, as Python's `sorted`
  does on `str`).  The MD5 function itself is kept as an abstract
  parameter `md5hex : String → String` of every definition that hashes:
  none of the verified properties depends on the internals of MD5, only
  on it being a function of the serialized text.
* The two external services (GLM area decomposition, Nominatim geocoding)
  are modelled as oracle functions given as parameters; their result types
  `LlmResult` and `GeoResult` enumerate exactly the response shapes the
  script distinguishes (exception raised, no JSON array in the text,
  unparsable array, parsed array; network/parse error, empty result list,
  non-empty result list).
* Python exceptions are modelled with `Except PyErr`; an uncaught
  exception aborts the whole run, exactly as in the script, which has no
  try/except around the main loop.
* The orchestrator loop (lines 169–238) is `runOn`; each finding's
  processing is `step`, which also emits a trace of `Event`s (external
  calls, checkpoint save, output append) so that call counts and the
  relative order of persistence operations can be stated.
* Wall-clock timing, `time.sleep` rate limiting, progress printing and the
  hit/miss counters used only for printing are not modelled; they do not
  influence any data produced by the script.
-/

set_option maxHeartbeats 1000000

namespace PostProcess

/-- JSON values as handled by Python's `json` module in this script.
Numbers are modelled as integers: no claim depends on float formatting,
and the raw findings hashed by the script carry only ints and strings. -/
inductive JVal where
  | jnull
  | jbool (b : Bool)
  | jint (n : Int)
  | jstr (s : String)
  | jarr (xs : List JVal)
  | jobj (fs : List (String × JVal))

/-- A Python dict with JSON-value entries: association list in insertion
order; a well-formed dict has `Nodup` keys. -/
abbrev PyDict := List (String × JVal)

/-- Python truthiness of a JSON value (`if not x` tests in the script). -/
def jFalsy : JVal → Bool
  | .jnull => true
  | .jbool b => !b
  | .jint n => n == 0
  | .jstr s => s == ""
  | .jarr xs => xs.isEmpty
  | .jobj fs => fs.isEmpty

/-- Python exceptions that the modelled code can raise (and never catches). -/
inductive PyErr where
  | keyError (k : String)
  | typeError
deriving DecidableEq

/-- `d[k]` on a Python dict: `KeyError` when the key is absent. -/
def dictGet (d : PyDict) (k : String) : Except PyErr JVal :=
  match d.lookup k with
  | some v => .ok v
  | none => .error (.keyError k)

/-- `v[k]` on an arbitrary JSON value: subscripting a non-dict with a
string raises `TypeError` in Python. -/
def getItem (v : JVal) (k : String) : Except PyErr JVal :=
  match v with
  | .jobj fs => dictGet fs k
  | _ => .error .typeError

/-! ## Canonical serialization (`json.dumps(..., sort_keys=True)`) -/

/-- JSON string escaping for the characters the serializer must escape. -/
def escapeChar (c : Char) : String :=
  if c = '"' then "\\\""
  else if c = '\\' then "\\\\"
  else if c = '\n' then "\\n"
  else if c = '\t' then "\\t"
  else if c = '\r' then "\\r"
  else String.singleton c

/-- Escape a whole string. -/
def escapeStr (s : String) : String :=
  String.join (s.toList.map escapeChar)

/-- Render one already-serialized object entry, `"key": value`. -/
def renderEntry (kv : String × String) : String :=
  "\"" ++ escapeStr kv.1 ++ "\": " ++ kv.2

/-- Lexicographic `≤` on character lists by Unicode code point, the order
Python's `sorted` uses on `str` keys.  (Core's `String.le` is not used
because its decision procedure does not reduce in the kernel.) -/
def charsLe : List Char → List Char → Bool
  | [], _ => true
  | _ :: _, [] => false
  | c :: cs, d :: ds =>
    if c.toNat < d.toNat then true
    else if d.toNat < c.toNat then false
    else charsLe cs ds

/-- Key order on serialized object entries: compare the keys. -/
def entryLe (a b : String × String) : Prop := charsLe a.1.data b.1.data = true

instance : DecidableRel entryLe := fun a b =>
  inferInstanceAs (Decidable (charsLe a.1.data b.1.data = true))

/-- Sort object entries by key, as `sort_keys=True` does. -/
def sortEntries (l : List (String × String)) : List (String × String) :=
  List.insertionSort entryLe l

/-- Join serialized items with a separator (`", "` in `json.dumps`). -/
def joinSep (sep : String) : List String → String
  | [] => ""
  | [x] => x
  | x :: xs => x ++ sep ++ joinSep sep xs

mutual

/-- `json.dumps(v, sort_keys=True, ensure_ascii=False)`: canonical
serialization with object entries sorted by key at every level. -/
def pyDumps : JVal → String
  | .jnull => "null"
  | .jbool true => "true"
  | .jbool false => "false"
  | .jint n => toString n
  | .jstr s => "\"" ++ escapeStr s ++ "\""
  | .jarr xs => "[" ++ joinSep ", " (pyDumpsArr xs) ++ "]"
  | .jobj fs =>
      "\x7b" ++ joinSep ", " ((sortEntries (pyDumpsEntries fs)).map renderEntry) ++ "\x7d"

/-- Serialize every element of a JSON array. -/
def pyDumpsArr : List JVal → List String
  | [] => []
  | x :: xs => pyDumps x :: pyDumpsArr xs

/-- Serialize the value of every object entry, keeping the key. -/
def pyDumpsEntries : List (String × JVal) → List (String × String)
  | [] => []
  | (k, v) :: fs => (k, pyDumps v) :: pyDumpsEntries fs

end

/-- `get_finding_hash` (source lines 37–41): hash of the canonical
serialization of the finding.  MD5 itself is the abstract `md5hex`. -/
def get_finding_hash (md5hex : String → String) (finding : PyDict) : String :=
  md5hex (pyDumps (.jobj finding))

/-! ## External-service adapters -/

/-- One enriched output record (`processed_finding`, source lines 209–218).
`host_species` keeps the JSON value put there by the loop: a split atom
(string) or, via the fallback, the original field value. -/
structure Enriched where
  document_id : JVal
  parasite_species : JVal
  host_species : JVal
  country : JVal
  area : JVal
  latitude : Option Rat
  longitude : Option Rat
  confidence_score : JVal

/-- Response of the Nominatim query as the script distinguishes it:
`err` covers every exception inside the `try` (network error, timeout,
non-2xx via `raise_for_status`, body that is not JSON, coordinates that
do not parse as floats); `ok rs` is the parsed candidate list with its
numeric coordinates (floats modelled as rationals). -/
inductive GeoResult where
  | err
  | ok (rs : List (Rat × Rat))

/-- Geocoding oracle: the external world, as a function of the query data. -/
abbrev GeoOracle := JVal → JVal → GeoResult

/-- Sentinel-or-coordinates result of `get_coordinates`. -/
structure Coords where
  latitude : Option Rat
  longitude : Option Rat

/-- `get_coordinates` (source lines 79–113): first candidate's coordinates,
or the `{latitude: None, longitude: None}` sentinel on any exception or on
an empty result list.  Total by construction: it never raises. -/
def get_coordinates (geo : GeoOracle) (area country : JVal) : Coords :=
  match geo area country with
  | .err => ⟨none, none⟩
  | .ok [] => ⟨none, none⟩
  | .ok (r :: _) => ⟨some r.1, some r.2⟩

/-- Outcome of the GLM call plus the response analysis the script performs:
`apiError` = the API call raised; `noArray` = no `[...]` substring matched
by `re.search(r'\[.*\]', content, re.DOTALL)`; `badJson` = a `[...]`
substring matched but `json.loads` raised on it; `parsed xs` = the matched
text parsed as a JSON array with elements `xs` (elements of any shape:
the script does not validate them). -/
inductive LlmResult where
  | apiError
  | noArray
  | badJson
  | parsed (xs : List JVal)

/-- Decomposition oracle: the external world, as a function of the
country and area values interpolated into the prompt. -/
abbrev LlmOracle := JVal → JVal → LlmResult

/-- `extract_areas_with_llm` (source lines 123–153): the parsed array is
returned as-is; every failure path falls back to
`[{"country": country, "area": area}]`. -/
def extract_areas_with_llm (llm : LlmOracle) (country area : JVal) : List JVal :=
  match llm country area with
  | .parsed xs => xs
  | .apiError => [.jobj [("country", country), ("area", area)]]
  | .noArray => [.jobj [("country", country), ("area", area)]]
  | .badJson => [.jobj [("country", country), ("area", area)]]

/-! ## Record splitter -/

/-- Python whitespace stripped by `str.strip` (ASCII portion). -/
def isSpaceChar (c : Char) : Bool :=
  c == ' ' || c == '\t' || c == '\n' || c == '\r' || c == '\x0b' || c == '\x0c'

/-- `str.strip()`. -/
def pyStrip (s : String) : String :=
  ⟨((s.data.dropWhile isSpaceChar).reverse.dropWhile isSpaceChar).reverse⟩

/-- Segments of a character list between delimiter characters, the way
`re.split` with a character class cuts a string. -/
def splitSegs (p : Char → Bool) : List Char → List (List Char)
  | [] => [[]]
  | c :: cs =>
    if p c then [] :: splitSegs p cs
    else
      match splitSegs p cs with
      | [] => [[c]]
      | t :: ts => (c :: t) :: ts

/-- `re.split(r'[,/]', s)`. -/
def reSplitCommaSlash (s : String) : List String :=
  (splitSegs (fun c => c == ',' || c == '/') s.data).map fun l => ⟨l⟩

/-- The atoms a non-empty string splits into:
`[s.strip() for s in re.split(r'[,/]', text) if s.strip()]`. -/
def splitAtoms (s : String) : List String :=
  ((reSplitCommaSlash s).map pyStrip).filter fun a => a ≠ ""

/-- `split_species` (source lines 115–121).  A falsy input returns `[]`
at once; `re.split` on a truthy non-string raises `TypeError`. -/
def split_species (species_text : JVal) : Except PyErr (List String) :=
  if jFalsy species_text then .ok []
  else
    match species_text with
    | .jstr s => .ok (splitAtoms s)
    | _ => .error .typeError

/-- Host list used for expansion (source lines 192–194): the split atoms,
or the original field value as the single host when splitting yields none. -/
def computeHosts (host_species : JVal) : Except PyErr (List JVal) := do
  let l ← split_species host_species
  pure (if l.isEmpty then [host_species] else l.map .jstr)

/-! ## Checkpoint store -/

/-- One checkpoint: the `{original, processed}` pair written to
`log/processed_findings/<digest>.json` (source lines 54–62). -/
structure Checkpoint where
  original : PyDict
  processed : List Enriched

/-- The checkpoint directory: digest-keyed blobs; a later save of the same
digest shadows the earlier one, like rewriting the file. -/
abbrev Store := List (String × Checkpoint)

/-- `load_checkpoint` (source lines 43–52), for a store of well-formed
checkpoints (an unreadable file is treated as absent by the script and is
outside this model). -/
def load_checkpoint (store : Store) (digest : String) : Option Checkpoint :=
  store.lookup digest

/-- `save_checkpoint` (source lines 54–62) as a store update. -/
def save_checkpoint (store : Store) (digest : String) (original : PyDict)
    (processed : List Enriched) : Store :=
  (digest, ⟨original, processed⟩) :: store

/-! ## Expansion orchestrator -/

/-- Observable actions of one loop iteration, in program order: the two
kinds of external call, the checkpoint write, the output-file append. -/
inductive Event where
  | llmCall (country area : JVal)
  | geoCall (area country : JVal)
  | saveCkpt (digest : String) (original : PyDict) (processed : List Enriched)
  | appendOut (entries : List Enriched)

/-- Whether an event is a call to one of the two external services. -/
def Event.isExternal : Event → Bool
  | .llmCall _ _ => true
  | .geoCall _ _ => true
  | _ => false

/-- Whether an event is a decomposition-service call. -/
def Event.isLlm : Event → Bool
  | .llmCall _ _ => true
  | _ => false

/-- The enriched record the loop body assembles for one
(host, fragment) pair (source lines 207–218). -/
def enrichedOf (geo : GeoOracle) (did ps cs host c n : JVal) : Enriched :=
  { document_id := did
    parasite_species := ps
    host_species := host
    country := c
    area := n
    latitude := (get_coordinates geo n c).latitude
    longitude := (get_coordinates geo n c).longitude
    confidence_score := cs }

/-- Inner loop body (source lines 202–221): look up the fragment's own
country and area (either lookup may raise), geocode, assemble the record. -/
def processPair (geo : GeoOracle) (did ps cs host area_data : JVal) :
    Except PyErr (Event × Enriched) := do
  let area_country ← getItem area_data "country"
  let area_name ← getItem area_data "area"
  pure (.geoCall area_name area_country,
        enrichedOf geo did ps cs host area_country area_name)

/-- Inner loop over the area fragments for one host. -/
def processHost (geo : GeoOracle) (did ps cs host : JVal) :
    List JVal → Except PyErr (List Event × List Enriched)
  | [] => .ok ([], [])
  | a :: as => do
    let (e, r) ← processPair geo did ps cs host a
    let (es, rs) ← processHost geo did ps cs host as
    pure (e :: es, r :: rs)

/-- Outer loop over the hosts (source lines 200–221). -/
def processAllHosts (geo : GeoOracle) (did ps cs : JVal) :
    List JVal → List JVal → Except PyErr (List Event × List Enriched)
  | [], _ => .ok ([], [])
  | h :: hs, areas => do
    let (es, rs) ← processHost geo did ps cs h areas
    let (es', rs') ← processAllHosts geo did ps cs hs areas
    pure (es ++ es', rs ++ rs')

/-- Cache-miss expansion of one finding (source lines 184–221): read the
six required fields (a missing one raises `KeyError`), split hosts,
decompose the area, build the cross-product.  Independent of the store. -/
def expandFinding (llm : LlmOracle) (geo : GeoOracle) (finding : PyDict) :
    Except PyErr (List Event × List Enriched) := do
  let document_id ← dictGet finding "document_id"
  let parasite_species ← dictGet finding "parasite_species"
  let host_species ← dictGet finding "host_species"
  let country ← dictGet finding "country"
  let area ← dictGet finding "area"
  let confidence_score ← dictGet finding "confidence_score"
  let hosts ← computeHosts host_species
  let areas := extract_areas_with_llm llm country area
  let (evs, recs) ← processAllHosts geo document_id parasite_species confidence_score hosts areas
  pure (Event.llmCall country area :: evs, recs)

/-- Result of one loop iteration. -/
structure StepOut where
  events : List Event
  processed : List Enriched
  cacheHit : Bool

/-- One iteration of the orchestrator loop (source lines 169–229): hash,
cache probe, on a hit replay the stored list verbatim with no external
call, on a miss expand then save the checkpoint then append the output. -/
def step (llm : LlmOracle) (geo : GeoOracle) (md5hex : String → String)
    (store : Store) (finding : PyDict) : Except PyErr StepOut :=
  let digest := get_finding_hash md5hex finding
  match load_checkpoint store digest with
  | some ckpt => .ok ⟨[.appendOut ckpt.processed], ckpt.processed, true⟩
  | none => do
    let (evs, recs) ← expandFinding llm geo finding
    pure ⟨evs ++ [.saveCkpt digest finding recs, .appendOut recs], recs, false⟩

/-- Durable and counted state threaded through a run: the checkpoint
store, the append-only output stream, and the external-call counters. -/
structure RunState where
  store : Store
  output : List Enriched
  llmCalls : Nat
  geoCalls : Nat

/-- Effect of one event on the run state. -/
def applyEvent (st : RunState) : Event → RunState
  | .llmCall _ _ => { st with llmCalls := st.llmCalls + 1 }
  | .geoCall _ _ => { st with geoCalls := st.geoCalls + 1 }
  | .saveCkpt d o p => { st with store := save_checkpoint st.store d o p }
  | .appendOut es => { st with output := st.output ++ es }

/-- Replay a list of events on the run state. -/
def applyEvents (st : RunState) (evs : List Event) : RunState :=
  evs.foldl applyEvent st

/-- The orchestrator loop over the whole findings list (source lines
169–238): strictly sequential; an uncaught exception aborts the run. -/
def runOn (llm : LlmOracle) (geo : GeoOracle) (md5hex : String → String) :
    RunState → List PyDict → Except PyErr RunState
  | st, [] => .ok st
  | st, f :: fs => do
    let so ← step llm geo md5hex st.store f
    runOn llm geo md5hex (applyEvents st so.events) fs

/-- A fresh run's initial state over durable `store` and output stream
`out`: the call counters of a new process start at zero. -/
def initState (store : Store) (out : List Enriched) : RunState :=
  ⟨store, out, 0, 0⟩

/-! Concrete restart scenario: one fixed finding, a decomposition service
that errors (single-fragment fallback) and a geocoder that answers. -/

/-- Decomposition oracle of the restart scenario. -/
def c9Llm : LlmOracle := fun _ _ => LlmResult.apiError

/-- Geocoding oracle of the restart scenario. -/
def c9Geo : GeoOracle := fun _ _ => GeoResult.ok [((1 : Rat), (2 : Rat))]

/-- First finding of the restart scenario. -/
def c9Finding : PyDict :=
  [("document_id", .jint 1), ("parasite_species", .jstr "P"),
   ("host_species", .jstr "H"), ("country", .jstr "France"),
   ("area", .jstr "Brest"), ("confidence_score", .jstr "High")]

/-- Second finding of the restart scenario (differs in `document_id`). -/
def c9FindingB : PyDict :=
  [("document_id", .jint 2), ("parasite_species", .jstr "P"),
   ("host_species", .jstr "H"), ("country", .jstr "France"),
   ("area", .jstr "Brest"), ("confidence_score", .jstr "High")]

/-- State after the interrupted first run over the single finding. -/
def c9FirstRun : RunState :=
  ((runOn c9Llm c9Geo id ⟨[], [], 0, 0⟩ [c9Finding]).toOption).getD ⟨[], [], 0, 0⟩

/-- State after the fresh second run over the same input, resuming from
the first run's durable store and output stream. -/
def c9SecondRun : RunState :=
  ((runOn c9Llm c9Geo id ⟨c9FirstRun.store, c9FirstRun.output, 0, 0⟩
      [c9Finding]).toOption).getD ⟨[], [], 0, 0⟩

/-- Interrupted run over the first of the two scenario findings. -/
def c9W1 : RunState :=
  ((runOn c9Llm c9Geo id ⟨[], [], 0, 0⟩
      (List.take 1 [c9Finding, c9FindingB])).toOption).getD ⟨[], [], 0, 0⟩

/-- Fresh run over both scenario findings from the interrupted state. -/
def c9W2 : RunState :=
  ((runOn c9Llm c9Geo id ⟨c9W1.store, c9W1.output, 0, 0⟩
      [c9Finding, c9FindingB]).toOption).getD ⟨[], [], 0, 0⟩

/-- The six fields the loop body reads from every uncached finding
(source lines 184–189), in read order. -/
def requiredKeys : List String :=
  ["document_id", "parasite_species", "host_species", "country", "area",
   "confidence_score"]

/-- The records a cache-miss expansion of `f` computes (empty when the
expansion raises); used to state run-level results in closed form. -/
def expandRecs (llm : LlmOracle) (geo : GeoOracle) (f : PyDict) : List Enriched :=
  match expandFinding llm geo f with
  | .ok (_, recs) => recs
  | .error _ => []

/-! ## Basic reduction lemmas -/

@[simp] theorem ok_bind {α β ε : Type} (v : α) (f : α → Except ε β) :
    (Except.ok v >>= f) = f v := rfl

@[simp] theorem error_bind {α β ε : Type} (e : ε) (f : α → Except ε β) :
    (Except.error e >>= f : Except ε β) = Except.error e := rfl

/-- The cross-product loop, in closed form: when every area fragment is a
dict carrying both keys, the inner loops cannot raise and produce exactly
one geocoding call and one record per (host, fragment) pair, in order. -/
theorem processHost_eq (geo : GeoOracle) (did ps cs host : JVal)
    (areas : List JVal) (ctryOf nameOf : JVal → JVal)
    (hwf : ∀ a ∈ areas,
      getItem a "country" = .ok (ctryOf a) ∧ getItem a "area" = .ok (nameOf a)) :
    processHost geo did ps cs host areas =
      .ok (areas.map fun a => Event.geoCall (nameOf a) (ctryOf a),
           areas.map fun a => enrichedOf geo did ps cs host (ctryOf a) (nameOf a)) := by
  induction areas with
  | nil => rfl
  | cons a as ih =>
    have h := hwf a (List.mem_cons_self a as)
    have ih' := ih fun x hx => hwf x (List.mem_cons_of_mem a hx)
    simp [processHost, processPair, h.1, h.2, ih']

/-- Outer loop in closed form: the records are the cross-product
hosts × fragments, each record carrying its own fragment's country. -/
theorem processAllHosts_eq (geo : GeoOracle) (did ps cs : JVal)
    (hosts areas : List JVal) (ctryOf nameOf : JVal → JVal)
    (hwf : ∀ a ∈ areas,
      getItem a "country" = .ok (ctryOf a) ∧ getItem a "area" = .ok (nameOf a)) :
    processAllHosts geo did ps cs hosts areas =
      .ok (hosts.flatMap fun _ => areas.map fun a => Event.geoCall (nameOf a) (ctryOf a),
           hosts.flatMap fun h =>
             areas.map fun a => enrichedOf geo did ps cs h (ctryOf a) (nameOf a)) := by
  induction hosts with
  | nil => rfl
  | cons h hs ih =>
    simp [processAllHosts, processHost_eq geo did ps cs h areas ctryOf nameOf hwf, ih]

/-- Summing a constant-length contribution over a list. -/
theorem sum_map_const_nat {α : Type} (l : List α) (n : Nat) :
    (l.map fun _ => n).sum = l.length * n := by
  induction l with
  | nil => simp
  | cons x xs ih => simp [ih, Nat.succ_mul, Nat.add_comm]

/-- Shape of a cache-miss iteration: expansion, then checkpoint save,
then output append. -/
theorem step_miss (llm : LlmOracle) (geo : GeoOracle) (md5hex : String → String)
    (store : Store) (finding : PyDict) (evs : List Event) (recs : List Enriched)
    (hmiss : load_checkpoint store (get_finding_hash md5hex finding) = none)
    (hexp : expandFinding llm geo finding = .ok (evs, recs)) :
    step llm geo md5hex store finding =
      .ok ⟨evs ++ [.saveCkpt (get_finding_hash md5hex finding) finding recs,
                   .appendOut recs],
           recs, false⟩ := by
  simp [step, hmiss, hexp]

/-- Shape of a cache-hit iteration: replay the stored list, append it,
nothing else. -/
theorem step_hit (llm : LlmOracle) (geo : GeoOracle) (md5hex : String → String)
    (store : Store) (finding : PyDict) (ckpt : Checkpoint)
    (hhit : load_checkpoint store (get_finding_hash md5hex finding) = some ckpt) :
    step llm geo md5hex store finding =
      .ok ⟨[.appendOut ckpt.processed], ckpt.processed, true⟩ := by
  simp [step, hhit]

/-- Closed form of a successful expansion of one finding. -/
theorem expandFinding_eq (llm : LlmOracle) (geo : GeoOracle)
    (finding : PyDict) (did ps hs c a cs : JVal) (hosts : List JVal)
    (ctryOf nameOf : JVal → JVal)
    (h1 : dictGet finding "document_id" = .ok did)
    (h2 : dictGet finding "parasite_species" = .ok ps)
    (h3 : dictGet finding "host_species" = .ok hs)
    (h4 : dictGet finding "country" = .ok c)
    (h5 : dictGet finding "area" = .ok a)
    (h6 : dictGet finding "confidence_score" = .ok cs)
    (hosts_eq : computeHosts hs = .ok hosts)
    (hwf : ∀ x ∈ extract_areas_with_llm llm c a,
      getItem x "country" = .ok (ctryOf x) ∧ getItem x "area" = .ok (nameOf x)) :
    expandFinding llm geo finding =
      .ok (Event.llmCall c a ::
             (hosts.flatMap fun _ =>
               (extract_areas_with_llm llm c a).map fun x =>
                 Event.geoCall (nameOf x) (ctryOf x)),
           hosts.flatMap fun h =>
             (extract_areas_with_llm llm c a).map fun x =>
               enrichedOf geo did ps cs h (ctryOf x) (nameOf x)) := by
  have hP := processAllHosts_eq geo did ps cs hosts (extract_areas_with_llm llm c a)
    ctryOf nameOf hwf
  simp [expandFinding, h1, h2, h3, h4, h5, h6, hosts_eq, hP]

/-! ## C3 — cross-product completeness -/

/-- C3: for an uncached finding whose six fields are present and whose
area fragments each carry their own `country` and `area` keys, the
orchestrator produces exactly |hosts| × |fragments| enriched records, one
per (host, fragment) pair, each carrying that fragment's own country. -/
theorem c3_cross_product_completeness
    (llm : LlmOracle) (geo : GeoOracle) (md5hex : String → String) (store : Store)
    (finding : PyDict) (did ps hs c a cs : JVal) (hosts : List JVal)
    (ctryOf nameOf : JVal → JVal)
    (hmiss : load_checkpoint store (get_finding_hash md5hex finding) = none)
    (h1 : dictGet finding "document_id" = .ok did)
    (h2 : dictGet finding "parasite_species" = .ok ps)
    (h3 : dictGet finding "host_species" = .ok hs)
    (h4 : dictGet finding "country" = .ok c)
    (h5 : dictGet finding "area" = .ok a)
    (h6 : dictGet finding "confidence_score" = .ok cs)
    (hosts_eq : computeHosts hs = .ok hosts)
    (hwf : ∀ x ∈ extract_areas_with_llm llm c a,
      getItem x "country" = .ok (ctryOf x) ∧ getItem x "area" = .ok (nameOf x)) :
    ∃ so, step llm geo md5hex store finding = .ok so ∧
      so.processed =
        (hosts.flatMap fun h =>
          (extract_areas_with_llm llm c a).map fun x =>
            enrichedOf geo did ps cs h (ctryOf x) (nameOf x)) ∧
      so.processed.length = hosts.length * (extract_areas_with_llm llm c a).length := by
  have hexp := expandFinding_eq llm geo finding did ps hs c a cs hosts ctryOf nameOf
    h1 h2 h3 h4 h5 h6 hosts_eq hwf
  refine ⟨_, step_miss llm geo md5hex store finding _ _ hmiss hexp, rfl, ?_⟩
  simp [List.length_flatMap, Function.comp_def, sum_map_const_nat]

/-- C3 witness: host field `"A, B"` and a decomposition into two
fragments yield exactly 4 records. -/
theorem c3_cross_product_completeness_witness :
    ∃ so,
      step
        (fun _ _ => LlmResult.parsed
          [.jobj [("country", .jstr "France"), ("area", .jstr "Arcachon Bay")],
           .jobj [("country", .jstr "France"), ("area", .jstr "Marennes")]])
        (fun _ _ => GeoResult.ok [((44 : Rat), (-1 : Rat))]) id []
        [("document_id", .jint 7), ("parasite_species", .jstr "Bonamia ostreae"),
         ("host_species", .jstr "A, B"), ("country", .jstr "France"),
         ("area", .jstr "Arcachon Bay and Marennes"), ("confidence_score", .jstr "High")]
        = .ok so ∧
      so.processed.length = 4 := by
  obtain ⟨so, hso, _, hlen⟩ :=
    c3_cross_product_completeness
      (fun _ _ => LlmResult.parsed
        [.jobj [("country", .jstr "France"), ("area", .jstr "Arcachon Bay")],
         .jobj [("country", .jstr "France"), ("area", .jstr "Marennes")]])
      (fun _ _ => GeoResult.ok [((44 : Rat), (-1 : Rat))]) id []
      [("document_id", .jint 7), ("parasite_species", .jstr "Bonamia ostreae"),
       ("host_species", .jstr "A, B"), ("country", .jstr "France"),
       ("area", .jstr "Arcachon Bay and Marennes"), ("confidence_score", .jstr "High")]
      (.jint 7) (.jstr "Bonamia ostreae") (.jstr "A, B") (.jstr "France")
      (.jstr "Arcachon Bay and Marennes") (.jstr "High")
      [.jstr "A", .jstr "B"]
      (fun x => ((getItem x "country").toOption).getD .jnull)
      (fun x => ((getItem x "area").toOption).getD .jnull)
      rfl rfl rfl rfl rfl rfl rfl rfl
      (by
        intro x hx
        rcases List.mem_cons.mp hx with rfl | hx
        · exact ⟨rfl, rfl⟩
        rcases List.mem_cons.mp hx with rfl | hx
        · exact ⟨rfl, rfl⟩
        · exact absurd hx (List.not_mem_nil x))
  exact ⟨so, hso, by simpa using hlen⟩

/-! ## C4 — decomposition fallback (corrected) -/

/-- C4 counterexample: the claim says the decomposer never returns an
empty sequence, but a service response that parses as the empty JSON
array `[]` is returned as-is, i.e. zero fragments. -/
theorem c4_counterexample :
    extract_areas_with_llm (fun _ _ => LlmResult.parsed [])
      (JVal.jstr "France") (JVal.jstr "Brest") = [] := rfl

/-- C4 (amended): whenever the external call errors, its response cannot
be parsed, or no recognizable JSON array is present, the decomposer
returns exactly one fragment equal to the original (country, area); but a
response parsing to an empty JSON array yields zero fragments, so the
result is not always non-empty. -/
theorem c4_fallback_single_fragment (llm : LlmOracle) (country area : JVal)
    (h : llm country area = .apiError ∨ llm country area = .noArray ∨
         llm country area = .badJson) :
    extract_areas_with_llm llm country area =
      [.jobj [("country", country), ("area", area)]] := by
  rcases h with h | h | h <;> simp [extract_areas_with_llm, h]

/-- C4 witness: an erroring call falls back to the original pair. -/
theorem c4_fallback_single_fragment_witness :
    extract_areas_with_llm (fun _ _ => LlmResult.apiError)
        (JVal.jstr "France") (JVal.jstr "Brest") =
      [.jobj [("country", .jstr "France"), ("area", .jstr "Brest")]] :=
  c4_fallback_single_fragment (fun _ _ => LlmResult.apiError)
    (JVal.jstr "France") (JVal.jstr "Brest") (Or.inl rfl)

/-! ## C5 — host list non-emptiness -/

/-- C5: the host list used for expansion is never empty: when the
`host_species` string is empty or splitting yields zero non-empty trimmed
atoms, the original string is the single host; otherwise the atoms are
the hosts. -/
theorem c5_host_list_nonempty (s : String) :
    ∃ hosts, computeHosts (.jstr s) = .ok hosts ∧ hosts ≠ [] ∧
      (splitAtoms s = [] → hosts = [.jstr s]) ∧
      (splitAtoms s ≠ [] → hosts = (splitAtoms s).map .jstr) := by
  by_cases hs : s = ""
  · subst hs
    exact ⟨[.jstr ""], rfl, by simp, fun _ => rfl, fun h => absurd rfl h⟩
  · have hF : jFalsy (.jstr s) = false := by simp [jFalsy, hs]
    by_cases hsplit : splitAtoms s = []
    · refine ⟨[.jstr s], ?_, by simp, fun _ => rfl, fun h => absurd hsplit h⟩
      simp [computeHosts, split_species, hF, hsplit]
    · refine ⟨(splitAtoms s).map .jstr, ?_, ?_, fun h => absurd h hsplit, fun _ => rfl⟩
      · simp [computeHosts, split_species, hF, List.isEmpty_iff, hsplit]
      · simpa using hsplit


/-! ## C2 — determinism of hashing -/

/-- Transitivity of the code-point order. -/
theorem charsLe_trans : ∀ (x y z : List Char),
    charsLe x y = true → charsLe y z = true → charsLe x z = true
  | [], _, _, _, _ => rfl
  | _ :: _, [], _, h1, _ => by simp [charsLe] at h1
  | _ :: _, _ :: _, [], _, h2 => by simp [charsLe] at h2
  | c :: cs, d :: ds, e :: es, h1, h2 => by
    simp only [charsLe] at h1 h2 ⊢
    by_cases hcd : c.toNat < d.toNat
    · by_cases hde : d.toNat < e.toNat
      · rw [if_pos (Nat.lt_trans hcd hde)]
      · by_cases hed : e.toNat < d.toNat
        · rw [if_neg hde, if_pos hed] at h2; simp at h2
        · rw [if_pos (by omega : c.toNat < e.toNat)]
    · by_cases hdc : d.toNat < c.toNat
      · rw [if_neg hcd, if_pos hdc] at h1; simp at h1
      · rw [if_neg hcd, if_neg hdc] at h1
        by_cases hde : d.toNat < e.toNat
        · rw [if_pos (by omega : c.toNat < e.toNat)]
        · by_cases hed : e.toNat < d.toNat
          · rw [if_neg hde, if_pos hed] at h2; simp at h2
          · rw [if_neg hde, if_neg hed] at h2
            rw [if_neg (by omega : ¬ c.toNat < e.toNat),
                if_neg (by omega : ¬ e.toNat < c.toNat)]
            exact charsLe_trans cs ds es h1 h2

/-- Totality of the code-point order. -/
theorem charsLe_total : ∀ (x y : List Char), charsLe x y = true ∨ charsLe y x = true
  | [], _ => Or.inl rfl
  | _ :: _, [] => Or.inr rfl
  | c :: cs, d :: ds => by
    simp only [charsLe]
    by_cases h : c.toNat < d.toNat
    · exact Or.inl (by rw [if_pos h])
    · by_cases h' : d.toNat < c.toNat
      · exact Or.inr (by rw [if_pos h'])
      · rcases charsLe_total cs ds with hh | hh
        · exact Or.inl (by rw [if_neg h, if_neg h']; exact hh)
        · exact Or.inr (by rw [if_neg h', if_neg h]; exact hh)

/-- Antisymmetry of the code-point order. -/
theorem charsLe_antisymm : ∀ (x y : List Char),
    charsLe x y = true → charsLe y x = true → x = y
  | [], [], _, _ => rfl
  | [], _ :: _, _, h2 => by simp [charsLe] at h2
  | _ :: _, [], h1, _ => by simp [charsLe] at h1
  | c :: cs, d :: ds, h1, h2 => by
    simp only [charsLe] at h1 h2
    by_cases h : c.toNat < d.toNat
    · rw [if_neg (by omega : ¬ d.toNat < c.toNat), if_pos h] at h2; simp at h2
    · by_cases h' : d.toNat < c.toNat
      · rw [if_neg h, if_pos h'] at h1; simp at h1
      · have hnn : c.toNat = d.toNat := by omega
        have hc : c = d := Char.eq_of_val_eq (UInt32.ext hnn)
        rw [if_neg h, if_neg h'] at h1
        rw [if_neg h', if_neg h] at h2
        rw [hc, charsLe_antisymm cs ds h1 h2]

/-- Two strings with the same character data are equal. -/
theorem string_data_inj {a b : String} (h : a.data = b.data) : a = b := by
  cases a; cases b; simp_all

/-- Sorting by key is invariant under permutation when the keys are
pairwise distinct (as the keys of a Python dict always are). -/
theorem sortEntries_eq_of_perm (l₁ l₂ : List (String × String))
    (hp : l₁.Perm l₂) (hnd : (l₁.map Prod.fst).Nodup) :
    sortEntries l₁ = sortEntries l₂ := by
  haveI : IsTotal (String × String) entryLe := ⟨fun a b => charsLe_total a.1.data b.1.data⟩
  haveI : IsTrans (String × String) entryLe :=
    ⟨fun a b c h1 h2 => charsLe_trans a.1.data b.1.data c.1.data h1 h2⟩
  haveI : IsAntisymm (String × String) fun a b => entryLe a b ∧ a.1 ≠ b.1 :=
    ⟨fun a b h1 h2 =>
      absurd (string_data_inj (charsLe_antisymm a.1.data b.1.data h1.1 h2.1)) h1.2⟩
  have hperm : (sortEntries l₁).Perm (sortEntries l₂) :=
    (List.perm_insertionSort entryLe l₁).trans
      (hp.trans (List.perm_insertionSort entryLe l₂).symm)
  have hnd₂ : (l₂.map Prod.fst).Nodup := ((hp.map Prod.fst).nodup_iff).mp hnd
  have key₁ : ((sortEntries l₁).map Prod.fst).Nodup :=
    (((List.perm_insertionSort entryLe l₁).map Prod.fst).nodup_iff).mpr hnd
  have key₂ : ((sortEntries l₂).map Prod.fst).Nodup :=
    (((List.perm_insertionSort entryLe l₂).map Prod.fst).nodup_iff).mpr hnd₂
  have hs₁ : (sortEntries l₁).Sorted fun a b => entryLe a b ∧ a.1 ≠ b.1 :=
    (List.sorted_insertionSort entryLe l₁).and (List.pairwise_map.mp key₁)
  have hs₂ : (sortEntries l₂).Sorted fun a b => entryLe a b ∧ a.1 ≠ b.1 :=
    (List.sorted_insertionSort entryLe l₂).and (List.pairwise_map.mp key₂)
  exact List.eq_of_perm_of_sorted hperm hs₁ hs₂

/-- `pyDumpsEntries` is a map over the entries. -/
theorem pyDumpsEntries_eq_map (l : List (String × JVal)) :
    pyDumpsEntries l = l.map fun kv => (kv.1, pyDumps kv.2) := by
  induction l with
  | nil => rfl
  | cons kv fs ih => cases kv; simp [pyDumpsEntries, ih]

/-- C2: findings with identical field contents but different in-memory
field insertion order hash to the same digest, for every hash function of
the canonical serialization — the digest is a pure function of the
record's field values, independent of field order and of process state. -/
theorem c2_hash_determinism (md5hex : String → String) (f g : PyDict)
    (hp : f.Perm g) (hnd : (f.map Prod.fst).Nodup) :
    get_finding_hash md5hex f = get_finding_hash md5hex g := by
  have hmap : ∀ l : PyDict,
      (l.map fun kv : String × JVal => ((kv.1, pyDumps kv.2) : String × String)).map Prod.fst =
        l.map Prod.fst := by
    intro l; simp [List.map_map, Function.comp_def]
  have hsort : sortEntries (pyDumpsEntries f) = sortEntries (pyDumpsEntries g) := by
    rw [pyDumpsEntries_eq_map, pyDumpsEntries_eq_map]
    refine sortEntries_eq_of_perm _ _ (hp.map _) ?_
    rw [hmap f]; exact hnd
  unfold get_finding_hash
  simp only [pyDumps, hsort]

/-- C2 witness: the same two fields in the two possible orders. -/
theorem c2_hash_determinism_witness :
    ([("b", JVal.jint 2), ("a", JVal.jstr "x")] : PyDict).Perm
        [("a", JVal.jstr "x"), ("b", JVal.jint 2)] ∧
    (([("b", JVal.jint 2), ("a", JVal.jstr "x")] : PyDict).map Prod.fst).Nodup ∧
    get_finding_hash id [("b", JVal.jint 2), ("a", JVal.jstr "x")] =
      get_finding_hash id [("a", JVal.jstr "x"), ("b", JVal.jint 2)] :=
  ⟨List.Perm.swap ("a", JVal.jstr "x") ("b", JVal.jint 2) [],
   by decide,
   c2_hash_determinism id _ _
     (List.Perm.swap ("a", JVal.jstr "x") ("b", JVal.jint 2) []) (by decide)⟩

/-- C5 witness: a single species with unexpected punctuation (only
delimiters and spaces) still yields one host, the original string. -/
theorem c5_host_list_nonempty_witness :
    ∃ hosts, computeHosts (.jstr ", /") = .ok hosts ∧ hosts ≠ [] := by
  obtain ⟨hosts, h1, h2, _, _⟩ := c5_host_list_nonempty ", /"
  exact ⟨hosts, h1, h2⟩

/-! ## C6 — geocoding failure isolation -/

/-- C6: geocoding never raises (`get_coordinates` is total by
construction); on an erroring call or an empty result set it returns the
null-coordinate sentinel; and a failure at one fragment's query affects
only that fragment's coordinate fields, never a sibling fragment's
record. -/
theorem c6_geocode_failure_isolation
    (geo geo' : GeoOracle) (did ps cs : JVal) (hosts areas : List JVal)
    (ctryOf nameOf : JVal → JVal)
    (hwf : ∀ a ∈ areas,
      getItem a "country" = .ok (ctryOf a) ∧ getItem a "area" = .ok (nameOf a))
    (n₀ c₀ : JVal)
    (hfail : geo n₀ c₀ = GeoResult.err ∨ geo n₀ c₀ = GeoResult.ok [])
    (hagree : ∀ n c, geo n c ≠ geo' n c → n = n₀ ∧ c = c₀) :
    get_coordinates geo n₀ c₀ = ⟨none, none⟩ ∧
    processAllHosts geo did ps cs hosts areas =
      .ok (hosts.flatMap fun _ => areas.map fun a => Event.geoCall (nameOf a) (ctryOf a),
           hosts.flatMap fun h =>
             areas.map fun a => enrichedOf geo did ps cs h (ctryOf a) (nameOf a)) ∧
    (∀ h a, ¬ (nameOf a = n₀ ∧ ctryOf a = c₀) →
      enrichedOf geo did ps cs h (ctryOf a) (nameOf a) =
        enrichedOf geo' did ps cs h (ctryOf a) (nameOf a)) ∧
    (∀ h a, nameOf a = n₀ → ctryOf a = c₀ →
      enrichedOf geo did ps cs h (ctryOf a) (nameOf a) =
        { enrichedOf geo' did ps cs h (ctryOf a) (nameOf a) with
            latitude := none, longitude := none }) := by
  have hsent : get_coordinates geo n₀ c₀ = ⟨none, none⟩ := by
    rcases hfail with h | h <;> simp [get_coordinates, h]
  refine ⟨hsent, processAllHosts_eq geo did ps cs hosts areas ctryOf nameOf hwf, ?_, ?_⟩
  · intro h a hne
    by_cases heq : geo (nameOf a) (ctryOf a) = geo' (nameOf a) (ctryOf a)
    · simp [enrichedOf, get_coordinates, heq]
    · exact absurd (hagree _ _ heq) hne
  · intro h a hn hc
    subst hn; subst hc
    simp [enrichedOf, hsent]

/-- C6 witness: two fragments, the first one's query errors: its record
carries the sentinel, the sibling's record is unaffected. -/
theorem c6_geocode_failure_isolation_witness :
    get_coordinates
        (fun n _ => match n with
          | .jstr "X" => GeoResult.err
          | _ => GeoResult.ok [((1 : Rat), (2 : Rat))])
        (.jstr "X") (.jstr "France") = ⟨none, none⟩ := by
  obtain ⟨h1, _, _, _⟩ :=
    c6_geocode_failure_isolation
      (fun n _ => match n with
        | .jstr "X" => GeoResult.err
        | _ => GeoResult.ok [((1 : Rat), (2 : Rat))])
      (fun n _ => match n with
        | .jstr "X" => GeoResult.err
        | _ => GeoResult.ok [((1 : Rat), (2 : Rat))])
      (.jint 7) (.jstr "P") (.jstr "High") [.jstr "A"]
      [.jobj [("country", .jstr "France"), ("area", .jstr "X")],
       .jobj [("country", .jstr "France"), ("area", .jstr "Y")]]
      (fun x => ((getItem x "country").toOption).getD .jnull)
      (fun x => ((getItem x "area").toOption).getD .jnull)
      (by
        intro x hx
        rcases List.mem_cons.mp hx with rfl | hx
        · exact ⟨rfl, rfl⟩
        rcases List.mem_cons.mp hx with rfl | hx
        · exact ⟨rfl, rfl⟩
        · exact absurd hx (List.not_mem_nil x))
      (.jstr "X") (.jstr "France")
      (Or.inl rfl)
      (fun _ _ hne => absurd rfl hne)
  exact h1


/-! ## Inversion lemmas for successful expansions -/

/-- A successful pair processing emits exactly one geocoding-call event. -/
theorem processPair_inv (geo : GeoOracle) (did ps cs host a : JVal)
    (ev : Event) (r : Enriched)
    (h : processPair geo did ps cs host a = .ok (ev, r)) :
    ∃ n c, ev = .geoCall n c := by
  cases g1 : getItem a "country" with
  | error e => simp [processPair, g1] at h
  | ok c =>
    cases g2 : getItem a "area" with
    | error e => simp [processPair, g1, g2] at h
    | ok n =>
      simp [processPair, g1, g2] at h
      exact ⟨n, c, h.1.symm⟩

/-- The inner loop emits only external-call events. -/
theorem processHost_events_external (geo : GeoOracle) (did ps cs host : JVal) :
    ∀ (areas : List JVal) (evs : List Event) (recs : List Enriched),
      processHost geo did ps cs host areas = .ok (evs, recs) →
      ∀ e ∈ evs, e.isExternal = true := by
  intro areas
  induction areas with
  | nil =>
    intro evs recs h e he
    simp [processHost] at h
    rw [h.1] at he
    exact absurd he (List.not_mem_nil e)
  | cons a as ih =>
    intro evs recs h e he
    cases pp : processPair geo did ps cs host a with
    | error err => simp [processHost, pp] at h
    | ok pr =>
      obtain ⟨ev, r⟩ := pr
      cases ph : processHost geo did ps cs host as with
      | error err => simp [processHost, pp, ph] at h
      | ok pr' =>
        obtain ⟨evs', recs'⟩ := pr'
        simp [processHost, pp, ph] at h
        rw [← h.1] at he
        rcases List.mem_cons.mp he with rfl | he'
        · obtain ⟨n, c, rfl⟩ := processPair_inv geo did ps cs host a e r pp
          rfl
        · exact ih evs' recs' ph e he'

/-- The whole cross-product loop emits only external-call events. -/
theorem processAllHosts_events_external (geo : GeoOracle) (did ps cs : JVal) :
    ∀ (hosts areas : List JVal) (evs : List Event) (recs : List Enriched),
      processAllHosts geo did ps cs hosts areas = .ok (evs, recs) →
      ∀ e ∈ evs, e.isExternal = true := by
  intro hosts
  induction hosts with
  | nil =>
    intro areas evs recs h e he
    simp [processAllHosts] at h
    rw [h.1] at he
    exact absurd he (List.not_mem_nil e)
  | cons hh hs ih =>
    intro areas evs recs h e he
    cases ph : processHost geo did ps cs hh areas with
    | error err => simp [processAllHosts, ph] at h
    | ok pr =>
      obtain ⟨evs₁, recs₁⟩ := pr
      cases pa : processAllHosts geo did ps cs hs areas with
      | error err => simp [processAllHosts, ph, pa] at h
      | ok pr' =>
        obtain ⟨evs₂, recs₂⟩ := pr'
        simp [processAllHosts, ph, pa] at h
        rw [← h.1] at he
        rcases List.mem_append.mp he with he' | he'
        · exact processHost_events_external geo did ps cs hh areas evs₁ recs₁ ph e he'
        · exact ih areas evs₂ recs₂ pa e he'

/-- Inversion of a successful expansion: the six fields were read, the
hosts computed, the cross-product built, and the event list is the
decomposition call followed by the loop's events. -/
theorem expandFinding_inv (llm : LlmOracle) (geo : GeoOracle) (f : PyDict)
    (evs : List Event) (recs : List Enriched)
    (hexp : expandFinding llm geo f = .ok (evs, recs)) :
    ∃ did ps hs c a cs hosts evs',
      dictGet f "document_id" = .ok did ∧
      dictGet f "parasite_species" = .ok ps ∧
      dictGet f "host_species" = .ok hs ∧
      dictGet f "country" = .ok c ∧
      dictGet f "area" = .ok a ∧
      dictGet f "confidence_score" = .ok cs ∧
      computeHosts hs = .ok hosts ∧
      processAllHosts geo did ps cs hosts (extract_areas_with_llm llm c a) =
        .ok (evs', recs) ∧
      evs = Event.llmCall c a :: evs' := by
  cases e1 : dictGet f "document_id" with
  | error e => simp [expandFinding, e1] at hexp
  | ok did =>
  cases e2 : dictGet f "parasite_species" with
  | error e => simp [expandFinding, e1, e2] at hexp
  | ok ps =>
  cases e3 : dictGet f "host_species" with
  | error e => simp [expandFinding, e1, e2, e3] at hexp
  | ok hs =>
  cases e4 : dictGet f "country" with
  | error e => simp [expandFinding, e1, e2, e3, e4] at hexp
  | ok c =>
  cases e5 : dictGet f "area" with
  | error e => simp [expandFinding, e1, e2, e3, e4, e5] at hexp
  | ok a =>
  cases e6 : dictGet f "confidence_score" with
  | error e => simp [expandFinding, e1, e2, e3, e4, e5, e6] at hexp
  | ok cs =>
  cases e7 : computeHosts hs with
  | error e => simp [expandFinding, e1, e2, e3, e4, e5, e6, e7] at hexp
  | ok hosts =>
  cases e8 : processAllHosts geo did ps cs hosts (extract_areas_with_llm llm c a) with
  | error e => simp [expandFinding, e1, e2, e3, e4, e5, e6, e7, e8] at hexp
  | ok pr =>
    obtain ⟨evs', recs'⟩ := pr
    simp [expandFinding, e1, e2, e3, e4, e5, e6, e7, e8] at hexp
    obtain ⟨hevs, hrecs⟩ := hexp
    subst hevs
    subst hrecs
    exact ⟨did, ps, hs, c, a, cs, hosts, evs', rfl, rfl, rfl, rfl, rfl, rfl, e7, e8, rfl⟩

/-- The events of a successful expansion are all external calls. -/
theorem expandFinding_events_external (llm : LlmOracle) (geo : GeoOracle)
    (f : PyDict) (evs : List Event) (recs : List Enriched)
    (hexp : expandFinding llm geo f = .ok (evs, recs)) :
    ∀ e ∈ evs, e.isExternal = true := by
  obtain ⟨did, ps, hs, c, a, cs, hosts, evs', _, _, _, _, _, _, _, hP, rfl⟩ :=
    expandFinding_inv llm geo f evs recs hexp
  intro e he
  rcases List.mem_cons.mp he with rfl | he'
  · rfl
  · exact processAllHosts_events_external geo did ps cs hosts _ evs' recs hP e he'

/-- External-call events leave the durable state untouched. -/
theorem applyEvents_external (st : RunState) (evs : List Event)
    (h : ∀ e ∈ evs, e.isExternal = true) :
    (applyEvents st evs).store = st.store ∧ (applyEvents st evs).output = st.output := by
  induction evs generalizing st with
  | nil => exact ⟨rfl, rfl⟩
  | cons e es ih =>
    have he := h e (List.mem_cons_self e es)
    have hrest : ∀ x ∈ es, x.isExternal = true :=
      fun x hx => h x (List.mem_cons_of_mem e hx)
    cases e with
    | llmCall c a => exact ih { st with llmCalls := st.llmCalls + 1 } hrest
    | geoCall a c => exact ih { st with geoCalls := st.geoCalls + 1 } hrest
    | saveCkpt d o p => simp [Event.isExternal] at he
    | appendOut es' => simp [Event.isExternal] at he

/-- `applyEvents` over concatenated event lists. -/
theorem applyEvents_append (st : RunState) (a b : List Event) :
    applyEvents st (a ++ b) = applyEvents (applyEvents st a) b :=
  List.foldl_append applyEvent st a b


/-! ## C8 — checkpoint persisted before output append -/

/-- C8: on every successful cache-miss iteration the event trace is some
external calls, then the checkpoint save, then — strictly after it — the
single append of that record's entries to the output stream; no output is
appended before the checkpoint is persisted. -/
theorem c8_checkpoint_before_output
    (llm : LlmOracle) (geo : GeoOracle) (md5hex : String → String)
    (store : Store) (f : PyDict) (so : StepOut)
    (hmiss : load_checkpoint store (get_finding_hash md5hex f) = none)
    (hok : step llm geo md5hex store f = .ok so) :
    ∃ pre recs,
      so.events =
        pre ++ [.saveCkpt (get_finding_hash md5hex f) f recs, .appendOut recs] ∧
      recs = so.processed ∧
      ∀ e ∈ pre, e.isExternal = true := by
  cases hexp : expandFinding llm geo f with
  | error e => simp [step, hmiss, hexp] at hok
  | ok pr =>
    obtain ⟨evs, recs⟩ := pr
    have hstep := step_miss llm geo md5hex store f evs recs hmiss hexp
    rw [hstep] at hok
    injection hok with h'
    subst h'
    exact ⟨evs, recs, rfl, rfl, expandFinding_events_external llm geo f evs recs hexp⟩

/-- C8 witness: a concrete miss; the trace ends with the checkpoint save
immediately followed by the output append. -/
theorem c8_checkpoint_before_output_witness :
    ∃ pre recs,
      (((step (fun _ _ => LlmResult.apiError) (fun _ _ => GeoResult.err) id []
          [("document_id", JVal.jint 1), ("parasite_species", .jstr "P"),
           ("host_species", .jstr "H"), ("country", .jstr "France"),
           ("area", .jstr "Brest"), ("confidence_score", .jstr "High")]).toOption).getD
         ⟨[], [], false⟩).events =
        pre ++ [.saveCkpt
                  (get_finding_hash id
                    [("document_id", JVal.jint 1), ("parasite_species", .jstr "P"),
                     ("host_species", .jstr "H"), ("country", .jstr "France"),
                     ("area", .jstr "Brest"), ("confidence_score", .jstr "High")])
                  [("document_id", JVal.jint 1), ("parasite_species", .jstr "P"),
                   ("host_species", .jstr "H"), ("country", .jstr "France"),
                   ("area", .jstr "Brest"), ("confidence_score", .jstr "High")] recs,
                .appendOut recs] ∧
      recs = (((step (fun _ _ => LlmResult.apiError) (fun _ _ => GeoResult.err) id []
          [("document_id", JVal.jint 1), ("parasite_species", .jstr "P"),
           ("host_species", .jstr "H"), ("country", .jstr "France"),
           ("area", .jstr "Brest"), ("confidence_score", .jstr "High")]).toOption).getD
         ⟨[], [], false⟩).processed ∧
      ∀ e ∈ pre, e.isExternal = true :=
  c8_checkpoint_before_output (fun _ _ => LlmResult.apiError) (fun _ _ => GeoResult.err)
    id []
    [("document_id", JVal.jint 1), ("parasite_species", .jstr "P"),
     ("host_species", .jstr "H"), ("country", .jstr "France"),
     ("area", .jstr "Brest"), ("confidence_score", .jstr "High")]
    _ rfl rfl

/-! ## C7 — missing required field halts the run -/

/-- Reading phase of an expansion: either the whole expansion raises, or
all six required fields are present. -/
theorem expandFinding_reads (llm : LlmOracle) (geo : GeoOracle) (f : PyDict) :
    (∃ e, expandFinding llm geo f = .error e) ∨
    (∀ k ∈ requiredKeys, ∃ v, dictGet f k = .ok v) := by
  cases e1 : dictGet f "document_id" with
  | error e => exact Or.inl ⟨e, by simp [expandFinding, e1]⟩
  | ok v1 =>
  cases e2 : dictGet f "parasite_species" with
  | error e => exact Or.inl ⟨e, by simp [expandFinding, e1, e2]⟩
  | ok v2 =>
  cases e3 : dictGet f "host_species" with
  | error e => exact Or.inl ⟨e, by simp [expandFinding, e1, e2, e3]⟩
  | ok v3 =>
  cases e4 : dictGet f "country" with
  | error e => exact Or.inl ⟨e, by simp [expandFinding, e1, e2, e3, e4]⟩
  | ok v4 =>
  cases e5 : dictGet f "area" with
  | error e => exact Or.inl ⟨e, by simp [expandFinding, e1, e2, e3, e4, e5]⟩
  | ok v5 =>
  cases e6 : dictGet f "confidence_score" with
  | error e => exact Or.inl ⟨e, by simp [expandFinding, e1, e2, e3, e4, e5, e6]⟩
  | ok v6 =>
    refine Or.inr ?_
    intro k hk
    simp only [requiredKeys, List.mem_cons, List.not_mem_nil, or_false] at hk
    rcases hk with rfl | rfl | rfl | rfl | rfl | rfl
    exacts [⟨v1, e1⟩, ⟨v2, e2⟩, ⟨v3, e3⟩, ⟨v4, e4⟩, ⟨v5, e5⟩, ⟨v6, e6⟩]

/-- C7: an uncached finding missing any of the six required fields makes
the run raise an unhandled exception at that finding; the whole run halts
and no later finding is processed — there is no per-record skip. -/
theorem c7_missing_field_halts_run
    (llm : LlmOracle) (geo : GeoOracle) (md5hex : String → String)
    (st : RunState) (f : PyDict) (rest : List PyDict) (k : String)
    (hmiss : load_checkpoint st.store (get_finding_hash md5hex f) = none)
    (hk : k ∈ requiredKeys)
    (hmissing : f.lookup k = none) :
    ∃ e, runOn llm geo md5hex st (f :: rest) = .error e := by
  rcases expandFinding_reads llm geo f with ⟨e, he⟩ | hall
  · exact ⟨e, by simp [runOn, step, hmiss, he]⟩
  · obtain ⟨v, hv⟩ := hall k hk
    simp [dictGet, hmissing] at hv

/-- C7 witness: a finding with only `document_id` halts a two-finding
run even though a well-formed finding follows it. -/
theorem c7_missing_field_halts_run_witness :
    "area" ∈ requiredKeys ∧
    ([("document_id", JVal.jint 1)] : PyDict).lookup "area" = none ∧
    ∃ e, runOn (fun _ _ => LlmResult.apiError) (fun _ _ => GeoResult.err) id
        (initState [] [])
        [[("document_id", JVal.jint 1)],
         [("document_id", JVal.jint 2), ("parasite_species", .jstr "P"),
          ("host_species", .jstr "H"), ("country", .jstr "France"),
          ("area", .jstr "Brest"), ("confidence_score", .jstr "High")]] =
      .error e :=
  ⟨by decide, rfl,
   c7_missing_field_halts_run (fun _ _ => LlmResult.apiError) (fun _ _ => GeoResult.err)
     id (initState [] []) [("document_id", JVal.jint 1)]
     [[("document_id", JVal.jint 2), ("parasite_species", .jstr "P"),
       ("host_species", .jstr "H"), ("country", .jstr "France"),
       ("area", .jstr "Brest"), ("confidence_score", .jstr "High")]]
     "area" rfl (by decide) rfl⟩

/-! ## C1 — idempotence of reprocessing -/

/-- C1: after a finding has been processed once (hit or miss), processing
it again against the resulting store is a cache hit that replays the same
`processed` list verbatim and performs zero external calls. -/
theorem c1_idempotent_processing
    (llm : LlmOracle) (geo : GeoOracle) (md5hex : String → String)
    (st : RunState) (f : PyDict) (so₁ : StepOut)
    (h : step llm geo md5hex st.store f = .ok so₁) :
    ∃ so₂, step llm geo md5hex (applyEvents st so₁.events).store f = .ok so₂ ∧
      so₂.processed = so₁.processed ∧
      so₂.events.countP Event.isExternal = 0 ∧
      so₂.cacheHit = true := by
  cases hload : load_checkpoint st.store (get_finding_hash md5hex f) with
  | some ckpt =>
    have hstep := step_hit llm geo md5hex st.store f ckpt hload
    rw [hstep] at h
    injection h with h'
    subst h'
    exact ⟨⟨[Event.appendOut ckpt.processed], ckpt.processed, true⟩,
      step_hit llm geo md5hex st.store f ckpt hload, rfl, rfl, rfl⟩
  | none =>
    cases hexp : expandFinding llm geo f with
    | error e => simp [step, hload, hexp] at h
    | ok pr =>
      obtain ⟨evs, recs⟩ := pr
      have hstep := step_miss llm geo md5hex st.store f evs recs hload hexp
      rw [hstep] at h
      injection h with h'
      subst h'
      have hext := expandFinding_events_external llm geo f evs recs hexp
      have hmid := (applyEvents_external st evs hext).1
      have hstore :
          (applyEvents st
            (evs ++ [Event.saveCkpt (get_finding_hash md5hex f) f recs,
                     Event.appendOut recs])).store =
            (get_finding_hash md5hex f, ⟨f, recs⟩) :: st.store := by
        rw [applyEvents_append]
        simp only [applyEvents, List.foldl, applyEvent, save_checkpoint]
        exact congrArg (List.cons _) hmid
      have hload₂ :
          load_checkpoint
            (applyEvents st
              (evs ++ [Event.saveCkpt (get_finding_hash md5hex f) f recs,
                       Event.appendOut recs])).store
            (get_finding_hash md5hex f) = some ⟨f, recs⟩ := by
        rw [hstore]
        simp [load_checkpoint, List.lookup]
      exact ⟨⟨[Event.appendOut recs], recs, true⟩,
        step_hit llm geo md5hex _ f ⟨f, recs⟩ hload₂, rfl, rfl, rfl⟩

/-- C1 witness: a concrete finding processed twice; the second pass
replays the first pass's list and performs no external call. -/
theorem c1_idempotent_processing_witness :
    ∃ so₂,
      step (fun _ _ => LlmResult.apiError) (fun _ _ => GeoResult.ok [((1 : Rat), (2 : Rat))])
        id
        (applyEvents (initState [] [])
          (((step (fun _ _ => LlmResult.apiError)
              (fun _ _ => GeoResult.ok [((1 : Rat), (2 : Rat))]) id []
              [("document_id", JVal.jint 3), ("parasite_species", .jstr "P"),
               ("host_species", .jstr "H"), ("country", .jstr "France"),
               ("area", .jstr "Brest"), ("confidence_score", .jstr "Low")]).toOption).getD
            ⟨[], [], false⟩).events).store
        [("document_id", JVal.jint 3), ("parasite_species", .jstr "P"),
         ("host_species", .jstr "H"), ("country", .jstr "France"),
         ("area", .jstr "Brest"), ("confidence_score", .jstr "Low")] = .ok so₂ ∧
      so₂.processed =
        (((step (fun _ _ => LlmResult.apiError)
            (fun _ _ => GeoResult.ok [((1 : Rat), (2 : Rat))]) id []
            [("document_id", JVal.jint 3), ("parasite_species", .jstr "P"),
             ("host_species", .jstr "H"), ("country", .jstr "France"),
             ("area", .jstr "Brest"), ("confidence_score", .jstr "Low")]).toOption).getD
          ⟨[], [], false⟩).processed ∧
      so₂.events.countP Event.isExternal = 0 ∧
      so₂.cacheHit = true :=
  c1_idempotent_processing (fun _ _ => LlmResult.apiError)
    (fun _ _ => GeoResult.ok [((1 : Rat), (2 : Rat))]) id (initState [] [])
    [("document_id", JVal.jint 3), ("parasite_species", .jstr "P"),
     ("host_species", .jstr "H"), ("country", .jstr "France"),
     ("area", .jstr "Brest"), ("confidence_score", .jstr "Low")]
    _ rfl

/-! ## C10 — unvalidated decomposition output aborts the run -/

/-- C10: a decomposition response that parses as a JSON array whose
element lacks the `country` key is returned unvalidated by the
decomposer, and the orchestrator then raises `KeyError "country"` while
assembling the cross-product, aborting the whole run instead of falling
back to the original (country, area). -/
theorem c10_unvalidated_fragment_aborts_run :
    extract_areas_with_llm (fun _ _ => LlmResult.parsed [.jobj [("name", .jstr "Brest")]])
        (.jstr "France") (.jstr "Brest area") = [.jobj [("name", .jstr "Brest")]] ∧
    runOn (fun _ _ => LlmResult.parsed [.jobj [("name", .jstr "Brest")]])
        (fun _ _ => GeoResult.ok [((1 : Rat), (2 : Rat))]) id (initState [] [])
        [[("document_id", JVal.jint 1), ("parasite_species", .jstr "P"),
          ("host_species", .jstr "H"), ("country", .jstr "France"),
          ("area", .jstr "Brest area"), ("confidence_score", .jstr "High")]] =
      .error (.keyError "country") :=
  ⟨rfl, rfl⟩


/-! ## Run-level lemmas (restart behaviour) -/

/-- Lookup after saving a different digest is unchanged. -/
theorem lookup_cons_of_ne {β : Type} (k k' : String) (v : β) (l : List (String × β))
    (h : k' ≠ k) : List.lookup k ((k', v) :: l) = List.lookup k l := by
  have hb : (k == k') = false := beq_eq_false_iff_ne.mpr fun e => h e.symm
  simp [List.lookup, hb]

/-- Lookup of a just-saved digest finds it. -/
theorem lookup_cons_self {β : Type} (k : String) (v : β) (l : List (String × β)) :
    List.lookup k ((k, v) :: l) = some v := by
  simp [List.lookup]

/-- The inner loop emits only geocoding-call events. -/
theorem processHost_events_geo (geo : GeoOracle) (did ps cs host : JVal) :
    ∀ (areas : List JVal) (evs : List Event) (recs : List Enriched),
      processHost geo did ps cs host areas = .ok (evs, recs) →
      ∀ e ∈ evs, ∃ n cc, e = .geoCall n cc := by
  intro areas
  induction areas with
  | nil =>
    intro evs recs h e he
    simp [processHost] at h
    rw [h.1] at he
    exact absurd he (List.not_mem_nil e)
  | cons a as ih =>
    intro evs recs h e he
    cases pp : processPair geo did ps cs host a with
    | error err => simp [processHost, pp] at h
    | ok pr =>
      obtain ⟨ev, r⟩ := pr
      cases ph : processHost geo did ps cs host as with
      | error err => simp [processHost, pp, ph] at h
      | ok pr' =>
        obtain ⟨evs', recs'⟩ := pr'
        simp [processHost, pp, ph] at h
        rw [← h.1] at he
        rcases List.mem_cons.mp he with rfl | he'
        · exact processPair_inv geo did ps cs host a e r pp
        · exact ih evs' recs' ph e he'

/-- The whole cross-product loop emits only geocoding-call events. -/
theorem processAllHosts_events_geo (geo : GeoOracle) (did ps cs : JVal) :
    ∀ (hosts areas : List JVal) (evs : List Event) (recs : List Enriched),
      processAllHosts geo did ps cs hosts areas = .ok (evs, recs) →
      ∀ e ∈ evs, ∃ n cc, e = .geoCall n cc := by
  intro hosts
  induction hosts with
  | nil =>
    intro areas evs recs h e he
    simp [processAllHosts] at h
    rw [h.1] at he
    exact absurd he (List.not_mem_nil e)
  | cons hh hs ih =>
    intro areas evs recs h e he
    cases ph : processHost geo did ps cs hh areas with
    | error err => simp [processAllHosts, ph] at h
    | ok pr =>
      obtain ⟨evs₁, recs₁⟩ := pr
      cases pa : processAllHosts geo did ps cs hs areas with
      | error err => simp [processAllHosts, ph, pa] at h
      | ok pr' =>
        obtain ⟨evs₂, recs₂⟩ := pr'
        simp [processAllHosts, ph, pa] at h
        rw [← h.1] at he
        rcases List.mem_append.mp he with he' | he'
        · exact processHost_events_geo geo did ps cs hh areas evs₁ recs₁ ph e he'
        · exact ih areas evs₂ recs₂ pa e he'

/-- Replaying only geocoding-call events just bumps the geo counter. -/
theorem applyEvents_geoCalls_only (st : RunState) (evs : List Event)
    (h : ∀ e ∈ evs, ∃ n cc, e = Event.geoCall n cc) :
    applyEvents st evs = { st with geoCalls := st.geoCalls + evs.length } := by
  induction evs generalizing st with
  | nil => rfl
  | cons e es ih =>
    obtain ⟨n, cc, rfl⟩ := h e (List.mem_cons_self e es)
    have hrest : ∀ x ∈ es, ∃ n cc, x = Event.geoCall n cc :=
      fun x hx => h x (List.mem_cons_of_mem _ hx)
    show applyEvents { st with geoCalls := st.geoCalls + 1 } es = _
    rw [ih _ hrest]
    simp
    omega

/-- Durable state after a successful cache-miss iteration: the checkpoint
is saved, the fresh records are appended, the decomposition counter rises
by one, and the geocoding counter by the number of pairs processed. -/
theorem stepState_miss (llm : LlmOracle) (geo : GeoOracle) (md5hex : String → String)
    (st : RunState) (f : PyDict) (evs : List Event) (recs : List Enriched)
    (hexp : expandFinding llm geo f = .ok (evs, recs)) :
    ∃ k,
      applyEvents st
        (evs ++ [Event.saveCkpt (get_finding_hash md5hex f) f recs,
                 Event.appendOut recs]) =
      ⟨(get_finding_hash md5hex f, ⟨f, recs⟩) :: st.store, st.output ++ recs,
       st.llmCalls + 1, st.geoCalls + k⟩ := by
  obtain ⟨did, ps, hs, c, a, cs, hosts, evs', _, _, _, _, _, _, _, hP, rfl⟩ :=
    expandFinding_inv llm geo f evs recs hexp
  have hgeo := processAllHosts_events_geo geo did ps cs hosts _ evs' recs hP
  refine ⟨evs'.length, ?_⟩
  rw [applyEvents_append]
  have h1 : applyEvents st (Event.llmCall c a :: evs') =
      { st with llmCalls := st.llmCalls + 1, geoCalls := st.geoCalls + evs'.length } := by
    show applyEvents { st with llmCalls := st.llmCalls + 1 } evs' = _
    rw [applyEvents_geoCalls_only _ evs' hgeo]
  rw [h1]
  rfl

/-- Running over a concatenation is running over the two parts in turn. -/
theorem runOn_append (llm : LlmOracle) (geo : GeoOracle) (md5hex : String → String) :
    ∀ (xs ys : List PyDict) (st : RunState),
      runOn llm geo md5hex st (xs ++ ys) =
        (runOn llm geo md5hex st xs) >>= fun st' => runOn llm geo md5hex st' ys := by
  intro xs
  induction xs with
  | nil => intro ys st; rfl
  | cons x xs ih =>
    intro ys st
    cases hs : step llm geo md5hex st.store x with
    | error e => simp [runOn, hs]
    | ok so => simp [runOn, hs, ih]

/-- A run over findings that are all already checkpointed replays the
stored lists in order, appends them, changes no durable state and makes
no external call. -/
theorem runOn_all_hits (llm : LlmOracle) (geo : GeoOracle) (md5hex : String → String)
    (ckptOf : PyDict → Checkpoint) :
    ∀ (fs : List PyDict) (st : RunState),
      (∀ f ∈ fs, load_checkpoint st.store (get_finding_hash md5hex f) = some (ckptOf f)) →
      runOn llm geo md5hex st fs =
        .ok ⟨st.store, st.output ++ fs.flatMap (fun f => (ckptOf f).processed),
             st.llmCalls, st.geoCalls⟩ := by
  intro fs
  induction fs with
  | nil => intro st h; simp [runOn]
  | cons f fs ih =>
    intro st h
    have hf := h f (List.mem_cons_self f fs)
    have hrest : ∀ g ∈ fs,
        load_checkpoint
          ({ st with output := st.output ++ (ckptOf f).processed } : RunState).store
          (get_finding_hash md5hex g) = some (ckptOf g) :=
      fun g hg => h g (List.mem_cons_of_mem _ hg)
    have hstep := step_hit llm geo md5hex st.store f (ckptOf f) hf
    calc runOn llm geo md5hex st (f :: fs)
        = runOn llm geo md5hex
            { st with output := st.output ++ (ckptOf f).processed } fs := by
          simp [runOn, hstep]; rfl
      _ = .ok ⟨st.store,
              (st.output ++ (ckptOf f).processed) ++
                fs.flatMap (fun g => (ckptOf g).processed),
              st.llmCalls, st.geoCalls⟩ := ih _ hrest
      _ = .ok ⟨st.store,
              st.output ++ (f :: fs).flatMap (fun g => (ckptOf g).processed),
              st.llmCalls, st.geoCalls⟩ := by
          simp [List.flatMap_cons, List.append_assoc]


/-- A run over pairwise-distinct uncached findings whose expansions all
succeed: each finding is expanded fresh (one decomposition call each),
its records appended in order, and its checkpoint saved and retrievable
afterwards; unrelated digests are untouched. -/
theorem runOn_all_misses (llm : LlmOracle) (geo : GeoOracle) (md5hex : String → String) :
    ∀ (fs : List PyDict) (st : RunState),
      List.Pairwise
        (fun f g => get_finding_hash md5hex f ≠ get_finding_hash md5hex g) fs →
      (∀ f ∈ fs, load_checkpoint st.store (get_finding_hash md5hex f) = none) →
      (∀ f ∈ fs, ∃ evs recs, expandFinding llm geo f = .ok (evs, recs)) →
      ∃ store' g,
        runOn llm geo md5hex st fs =
          .ok ⟨store', st.output ++ fs.flatMap (expandRecs llm geo),
               st.llmCalls + fs.length, g⟩ ∧
        (∀ f ∈ fs, load_checkpoint store' (get_finding_hash md5hex f) =
          some ⟨f, expandRecs llm geo f⟩) ∧
        (∀ d, (∀ f ∈ fs, d ≠ get_finding_hash md5hex f) →
          load_checkpoint store' d = load_checkpoint st.store d) := by
  intro fs
  induction fs with
  | nil =>
    intro st _ _ _
    exact ⟨st.store, st.geoCalls, by simp [runOn], by simp, fun d _ => rfl⟩
  | cons f fs ih =>
    intro st hd hu hx
    obtain ⟨evs, recs, hexp⟩ := hx f (List.mem_cons_self f fs)
    have hrecs : expandRecs llm geo f = recs := by simp [expandRecs, hexp]
    have hdhead : ∀ g ∈ fs,
        get_finding_hash md5hex f ≠ get_finding_hash md5hex g :=
      (List.pairwise_cons.mp hd).1
    have hstep := step_miss llm geo md5hex st.store f evs recs
      (hu f (List.mem_cons_self f fs)) hexp
    obtain ⟨k, hstate⟩ := stepState_miss llm geo md5hex st f evs recs hexp
    have hu' : ∀ g ∈ fs,
        load_checkpoint
          (⟨(get_finding_hash md5hex f, ⟨f, recs⟩) :: st.store, st.output ++ recs,
            st.llmCalls + 1, st.geoCalls + k⟩ : RunState).store
          (get_finding_hash md5hex g) = none := by
      intro g hg
      show List.lookup _ _ = none
      rw [lookup_cons_of_ne _ _ _ _ (hdhead g hg)]
      exact hu g (List.mem_cons_of_mem _ hg)
    obtain ⟨store', g, hrun, hin, hout⟩ :=
      ih ⟨(get_finding_hash md5hex f, ⟨f, recs⟩) :: st.store, st.output ++ recs,
          st.llmCalls + 1, st.geoCalls + k⟩
        (List.pairwise_cons.mp hd).2 hu'
        (fun q hq => hx q (List.mem_cons_of_mem _ hq))
    refine ⟨store', g, ?_, ?_, ?_⟩
    · have hchain : runOn llm geo md5hex st (f :: fs) =
          runOn llm geo md5hex
            ⟨(get_finding_hash md5hex f, ⟨f, recs⟩) :: st.store, st.output ++ recs,
             st.llmCalls + 1, st.geoCalls + k⟩ fs := by
        simp only [runOn, hstep, ok_bind]
        rw [hstate]
      rw [hchain, hrun]
      have hout2 : (st.output ++ recs) ++ fs.flatMap (expandRecs llm geo) =
          st.output ++ (f :: fs).flatMap (expandRecs llm geo) := by
        simp [List.flatMap_cons, hrecs, List.append_assoc]
      have hllm : st.llmCalls + 1 + fs.length = st.llmCalls + (f :: fs).length := by
        simp only [List.length_cons]
        omega
      rw [hout2, hllm]
    · intro q hq
      rcases List.mem_cons.mp hq with rfl | hq'
      · have hne : ∀ g ∈ fs, get_finding_hash md5hex q ≠ get_finding_hash md5hex g :=
          hdhead
        have := hout (get_finding_hash md5hex q) hne
        rw [this]
        show List.lookup _ _ = _
        rw [lookup_cons_self, hrecs]
      · exact hin q hq'
    · intro d hdall
      have h1 := hout d (fun q hq => hdall q (List.mem_cons_of_mem _ hq))
      rw [h1]
      show List.lookup _ _ = _
      rw [lookup_cons_of_ne _ _ _ _
        (fun e => hdall f (List.mem_cons_self f fs) e.symm)]
      rfl

/-- In a successful run over pairwise-distinct uncached findings, every
finding's expansion succeeded. -/
theorem runOn_ok_expand (llm : LlmOracle) (geo : GeoOracle) (md5hex : String → String) :
    ∀ (fs : List PyDict) (st st' : RunState),
      List.Pairwise
        (fun f g => get_finding_hash md5hex f ≠ get_finding_hash md5hex g) fs →
      (∀ f ∈ fs, load_checkpoint st.store (get_finding_hash md5hex f) = none) →
      runOn llm geo md5hex st fs = .ok st' →
      ∀ f ∈ fs, ∃ evs recs, expandFinding llm geo f = .ok (evs, recs) := by
  intro fs
  induction fs with
  | nil => intro st st' _ _ _ f hf; exact absurd hf (List.not_mem_nil f)
  | cons f fs ih =>
    intro st st' hd hu hrun q hq
    cases hexp : expandFinding llm geo f with
    | error e =>
      rw [show runOn llm geo md5hex st (f :: fs) =
            (step llm geo md5hex st.store f) >>=
              (fun so => runOn llm geo md5hex (applyEvents st so.events) fs) from rfl,
          show step llm geo md5hex st.store f = .error e by
            simp [step, hu f (List.mem_cons_self f fs), hexp]] at hrun
      exact absurd hrun (by simp)
    | ok pr =>
      obtain ⟨evs, recs⟩ := pr
      rcases List.mem_cons.mp hq with rfl | hq'
      · exact ⟨evs, recs, hexp⟩
      · have hstep := step_miss llm geo md5hex st.store f evs recs
          (hu f (List.mem_cons_self f fs)) hexp
        obtain ⟨k, hstate⟩ := stepState_miss llm geo md5hex st f evs recs hexp
        have hchain : runOn llm geo md5hex st (f :: fs) =
            runOn llm geo md5hex
              ⟨(get_finding_hash md5hex f, ⟨f, recs⟩) :: st.store, st.output ++ recs,
               st.llmCalls + 1, st.geoCalls + k⟩ fs := by
          simp only [runOn, hstep, ok_bind]
          rw [hstate]
        rw [hchain] at hrun
        have hu' : ∀ g ∈ fs,
            load_checkpoint
              (⟨(get_finding_hash md5hex f, ⟨f, recs⟩) :: st.store, st.output ++ recs,
                st.llmCalls + 1, st.geoCalls + k⟩ : RunState).store
              (get_finding_hash md5hex g) = none := by
          intro g hg
          show List.lookup _ _ = none
          rw [lookup_cons_of_ne _ _ _ _ ((List.pairwise_cons.mp hd).1 g hg)]
          exact hu g (List.mem_cons_of_mem _ hg)
        exact ih _ st' (List.pairwise_cons.mp hd).2 hu' hrun q hq'


/-! ## C9 — restart resumption (corrected) -/

/-- C9 counterexample: with one finding fully processed (M = N = 1), a
fresh run performs the promised zero new external calls — but the cache
hit re-appends the stored entries to the never-truncated output stream,
so the cumulative stream holds the entries twice and is not equal in
content (even ignoring order) to a single uninterrupted run's output. -/
theorem c9_counterexample :
    runOn c9Llm c9Geo id ⟨[], [], 0, 0⟩ [c9Finding] = .ok c9FirstRun ∧
    runOn c9Llm c9Geo id ⟨c9FirstRun.store, c9FirstRun.output, 0, 0⟩ [c9Finding] =
      .ok c9SecondRun ∧
    c9SecondRun.llmCalls = 0 ∧ c9SecondRun.geoCalls = 0 ∧
    c9FirstRun.output.length = 1 ∧ c9SecondRun.output.length = 2 ∧
    ¬ c9SecondRun.output.Perm c9FirstRun.output :=
  ⟨rfl, rfl, rfl, rfl, rfl, rfl, fun h => absurd h.length_eq (by decide)⟩

/-- C9 (amended): with pairwise-distinct digests, a run interrupted after
the first N findings followed by a fresh full run performs exactly M − N
new decomposition calls (only the uncached findings are expanded), and
the cumulative output stream equals the interrupted run's output followed
by the full output of a single uninterrupted run — i.e. the single run's
content plus one extra copy of the first N findings' entries, which the
fresh run's cache hits re-append. -/
theorem c9_restart_resumption
    (llm : LlmOracle) (geo : GeoOracle) (md5hex : String → String)
    (findings : List PyDict) (N : Nat) (st₁ st₂ : RunState)
    (hd : List.Pairwise
      (fun f g => get_finding_hash md5hex f ≠ get_finding_hash md5hex g) findings)
    (h1 : runOn llm geo md5hex ⟨[], [], 0, 0⟩ (findings.take N) = .ok st₁)
    (h2 : runOn llm geo md5hex ⟨st₁.store, st₁.output, 0, 0⟩ findings = .ok st₂) :
    ∃ stS, runOn llm geo md5hex ⟨[], [], 0, 0⟩ findings = .ok stS ∧
      st₂.llmCalls = findings.length - N ∧
      st₂.output = st₁.output ++ stS.output := by
  have hsplit := List.take_append_drop N findings
  have hdApp : List.Pairwise
      (fun f g => get_finding_hash md5hex f ≠ get_finding_hash md5hex g)
      (findings.take N ++ findings.drop N) := by rw [hsplit]; exact hd
  obtain ⟨hdT, hdD, hcross⟩ := List.pairwise_append.mp hdApp
  have huT : ∀ f ∈ findings.take N,
      load_checkpoint ((⟨[], [], 0, 0⟩ : RunState)).store (get_finding_hash md5hex f) =
        none := fun f _ => rfl
  have hxT := runOn_ok_expand llm geo md5hex (findings.take N) ⟨[], [], 0, 0⟩ st₁
    hdT huT h1
  obtain ⟨storeA, gA, hrunA, hinA, houtA⟩ :=
    runOn_all_misses llm geo md5hex (findings.take N) ⟨[], [], 0, 0⟩ hdT huT hxT
  rw [hrunA] at h1
  injection h1 with h1'
  have hst₁store : st₁.store = storeA := by rw [← h1']
  have hst₁out : st₁.output = (findings.take N).flatMap (expandRecs llm geo) := by
    rw [← h1']
    simp
  rw [hst₁store, hst₁out] at h2
  have hhits : ∀ f ∈ findings.take N,
      load_checkpoint
        ((⟨storeA, (findings.take N).flatMap (expandRecs llm geo), 0, 0⟩ :
            RunState)).store
        (get_finding_hash md5hex f) = some ⟨f, expandRecs llm geo f⟩ :=
    fun f hf => hinA f hf
  have hitEq' :
      runOn llm geo md5hex
        ⟨storeA, (findings.take N).flatMap (expandRecs llm geo), 0, 0⟩
        (findings.take N) =
      .ok ⟨storeA,
           (findings.take N).flatMap (expandRecs llm geo) ++
             (findings.take N).flatMap (expandRecs llm geo), 0, 0⟩ :=
    runOn_all_hits llm geo md5hex (fun f => ⟨f, expandRecs llm geo f⟩)
      (findings.take N)
      ⟨storeA, (findings.take N).flatMap (expandRecs llm geo), 0, 0⟩ hhits
  have happ := runOn_append llm geo md5hex (findings.take N) (findings.drop N)
    ⟨storeA, (findings.take N).flatMap (expandRecs llm geo), 0, 0⟩
  rw [hsplit] at happ
  rw [happ, hitEq'] at h2
  simp only [ok_bind] at h2
  have huD : ∀ f ∈ findings.drop N,
      load_checkpoint
        ((⟨storeA,
            (findings.take N).flatMap (expandRecs llm geo) ++
              (findings.take N).flatMap (expandRecs llm geo), 0, 0⟩ :
            RunState)).store
        (get_finding_hash md5hex f) = none := by
    intro f hf
    have hne : ∀ g ∈ findings.take N,
        get_finding_hash md5hex f ≠ get_finding_hash md5hex g :=
      fun g hg => (hcross g hg f hf).symm
    exact (houtA _ hne).trans rfl
  have hxD := runOn_ok_expand llm geo md5hex (findings.drop N)
    ⟨storeA,
     (findings.take N).flatMap (expandRecs llm geo) ++
       (findings.take N).flatMap (expandRecs llm geo), 0, 0⟩ st₂ hdD huD h2
  obtain ⟨storeB, gB, hrunB, hinB, houtB⟩ :=
    runOn_all_misses llm geo md5hex (findings.drop N)
      ⟨storeA,
       (findings.take N).flatMap (expandRecs llm geo) ++
         (findings.take N).flatMap (expandRecs llm geo), 0, 0⟩ hdD huD hxD
  rw [hrunB] at h2
  injection h2 with h2''
  have huAll : ∀ f ∈ findings,
      load_checkpoint ((⟨[], [], 0, 0⟩ : RunState)).store (get_finding_hash md5hex f) =
        none := fun f _ => rfl
  have hxAll : ∀ f ∈ findings, ∃ evs recs, expandFinding llm geo f = .ok (evs, recs) := by
    intro f hf
    have hf' : f ∈ findings.take N ++ findings.drop N := by rw [hsplit]; exact hf
    rcases List.mem_append.mp hf' with h | h
    · exact hxT f h
    · exact hxD f h
  obtain ⟨storeC, gC, hrunC, hinC, houtC⟩ :=
    runOn_all_misses llm geo md5hex findings ⟨[], [], 0, 0⟩ hd huAll hxAll
  refine ⟨_, hrunC, ?_, ?_⟩
  · rw [← h2'']
    show 0 + (findings.drop N).length = findings.length - N
    simp [List.length_drop]
  · rw [← h2'', hst₁out]
    show ((findings.take N).flatMap (expandRecs llm geo) ++
            (findings.take N).flatMap (expandRecs llm geo)) ++
          (findings.drop N).flatMap (expandRecs llm geo) =
        (findings.take N).flatMap (expandRecs llm geo) ++
          ([] ++ findings.flatMap (expandRecs llm geo))
    have hfm : findings.flatMap (expandRecs llm geo) =
        (findings.take N).flatMap (expandRecs llm geo) ++
          (findings.drop N).flatMap (expandRecs llm geo) := by
      conv_lhs => rw [← hsplit]
      rw [List.flatMap_append]
    rw [hfm]
    simp [List.append_assoc]

/-- C9 witness: two distinct findings, interrupted after the first; the
fresh run makes exactly one new decomposition call and the cumulative
stream is the interrupted output followed by the single-run output. -/
theorem c9_restart_resumption_witness :
    ∃ stS, runOn c9Llm c9Geo id ⟨[], [], 0, 0⟩ [c9Finding, c9FindingB] = .ok stS ∧
      c9W2.llmCalls = ([c9Finding, c9FindingB] : List PyDict).length - 1 ∧
      c9W2.output = c9W1.output ++ stS.output :=
  c9_restart_resumption c9Llm c9Geo id [c9Finding, c9FindingB] 1 c9W1 c9W2
    (by
      refine List.Pairwise.cons ?_ (List.pairwise_singleton _ _)
      intro g hg
      rcases List.mem_singleton.mp hg with rfl
      decide)
    rfl rfl

end PostProcess
